import Mathlib

/-!
Verification of the assignment and progress state machine of the trip-study
web application (src/app.py) against its natural-language specification.

The Python code is shallowly embedded: CSV files and JSON side files become
lists and association lists, the request handlers become pure functions over
that state, and client-supplied JSON numbers become `Int` (route-converter
numbers, which Flask only matches as digit strings, become `Nat`).
Timestamps are not modelled; no claim depends on them.
-/

/-- Latin square sequences for condition order (app.py, `CONDITION_ORDER_SEQUENCES`). -/
def CONDITION_ORDER_SEQUENCES : List (List Nat) :=
  [[0, 1, 2, 3, 4],
   [1, 2, 3, 4, 0],
   [2, 3, 4, 0, 1],
   [3, 4, 0, 1, 2],
   [4, 0, 1, 2, 3]]

/-- Trip order sequences (app.py, `TRIP_ORDER_SEQUENCES`). -/
def TRIP_ORDER_SEQUENCES : List (List Nat) :=
  [[0, 1, 2, 3, 4, 5, 6, 7, 8, 9],
   [4, 7, 1, 9, 2, 0, 5, 8, 3, 6],
   [8, 2, 5, 0, 6, 9, 1, 4, 7, 3],
   [3, 6, 9, 1, 8, 4, 0, 2, 5, 7],
   [7, 0, 4, 8, 1, 3, 9, 6, 2, 5],
   [2, 9, 6, 3, 5, 7, 4, 0, 1, 8],
   [5, 3, 0, 7, 9, 1, 8, 2, 6, 4],
   [9, 5, 8, 2, 0, 6, 3, 1, 4, 7],
   [1, 8, 3, 6, 7, 2, 0, 9, 5, 4],
   [6, 4, 7, 5, 3, 8, 2, 9, 0, 1]]

/-- The spec's `ConditionOrderTable` (spec section 4.1), stated verbatim so the
code tables can be compared against it. -/
def ConditionOrderTable : List (List Nat) :=
  [[0, 1, 2, 3, 4],
   [1, 2, 3, 4, 0],
   [2, 3, 4, 0, 1],
   [3, 4, 0, 1, 2],
   [4, 0, 1, 2, 3]]

/-- The spec's `TrialOrderTable` (spec section 4.1), stated verbatim. -/
def TrialOrderTable : List (List Nat) :=
  [[0, 1, 2, 3, 4, 5, 6, 7, 8, 9],
   [4, 7, 1, 9, 2, 0, 5, 8, 3, 6],
   [8, 2, 5, 0, 6, 9, 1, 4, 7, 3],
   [3, 6, 9, 1, 8, 4, 0, 2, 5, 7],
   [7, 0, 4, 8, 1, 3, 9, 6, 2, 5],
   [2, 9, 6, 3, 5, 7, 4, 0, 1, 8],
   [5, 3, 0, 7, 9, 1, 8, 2, 6, 4],
   [9, 5, 8, 2, 0, 6, 3, 1, 4, 7],
   [1, 8, 3, 6, 7, 2, 0, 9, 5, 4],
   [6, 4, 7, 5, 3, 8, 2, 9, 0, 1]]

/-- One data row of `participant_assignments.csv` (the global ledger). -/
structure AssignmentRow where
  participant_id : String
  condition_order_idx : Nat
  trip_order_idx : Nat
deriving DecidableEq

/-- `get_participant_assignment` (app.py): scan the ledger in file order and
return the condition-order / trip-order indices of the first row whose
participant id matches, or nothing. -/
def get_participant_assignment : List AssignmentRow → String → Option (Nat × Nat)
  | [], _ => none
  | r :: rest, pid =>
    if r.participant_id = pid then some (r.condition_order_idx, r.trip_order_idx)
    else get_participant_assignment rest pid

/-- `get_condition_for_trip` (app.py): condition for an overall trip number.
A missing assignment or an out-of-range index (a Python `IndexError`) is `none`. -/
def get_condition_for_trip (ledger : List AssignmentRow) (pid : String) (n : Nat) :
    Option Nat :=
  (get_participant_assignment ledger pid).bind fun a =>
    (CONDITION_ORDER_SEQUENCES.get? a.1).bind fun seq => seq.get? (n / 10)

/-- `get_trip_id_for_trip` (app.py): trip id for an overall trip number; the
trip-order row is rotated by the block number modulo the table length. -/
def get_trip_id_for_trip (ledger : List AssignmentRow) (pid : String) (n : Nat) :
    Option Nat :=
  (get_participant_assignment ledger pid).bind fun a =>
    let block := n / 10
    let eff := (a.2 + block) % TRIP_ORDER_SEQUENCES.length
    (TRIP_ORDER_SEQUENCES.get? eff).bind fun seq => seq.get? (n % 10)

/-- A one-participant demo ledger: participant `P1` allocated 0th, so both
indices are 0 (spec section 8, end-to-end property). -/
def demoLedger : List AssignmentRow := [⟨"P1", 0, 0⟩]

/-- Name of the demo participant. -/
def pidP1 : String := "P1"

/-- C1: for every assignment and every overall trial number `n` in 0..49,
`get_condition_for_trip` returns `ConditionOrderTable[conditionOrderIndex][n / 10]`
and `get_trip_id_for_trip` returns
`TrialOrderTable[(trialOrderIndex + n / 10) % 10][n % 10]`, with the code tables
equal (verbatim) to the spec tables; both resolvers are pure functions of the
assignment and `n`. -/
theorem c1_resolvers_follow_tables :
    CONDITION_ORDER_SEQUENCES = ConditionOrderTable
    ∧ TRIP_ORDER_SEQUENCES = TrialOrderTable
    ∧ ∀ (ledger : List AssignmentRow) (pid : String) (coi toi n : Nat),
        get_participant_assignment ledger pid = some (coi, toi) →
        coi < 5 → toi < 10 → n < 50 →
        get_condition_for_trip ledger pid n
            = some ((ConditionOrderTable.getD coi []).getD (n / 10) 0)
          ∧ get_trip_id_for_trip ledger pid n
            = some ((TrialOrderTable.getD ((toi + n / 10) % 10) []).getD (n % 10) 0) := by
  refine ⟨rfl, rfl, ?_⟩
  intro ledger pid coi toi n hassign hcoi htoi hn
  have hb : n / 10 < 5 := by omega
  have hj : n % 10 < 10 := by omega
  have heff : (toi + n / 10) % 10 < 10 := by omega
  constructor
  · have key : ∀ c < 5, ∀ b < 5,
        (CONDITION_ORDER_SEQUENCES.get? c).bind (fun seq => seq.get? b)
          = some ((ConditionOrderTable.getD c []).getD b 0) := by decide
    simp only [get_condition_for_trip, hassign, Option.bind]
    exact key coi hcoi (n / 10) hb
  · have key : ∀ e < 10, ∀ j < 10,
        (TRIP_ORDER_SEQUENCES.get? e).bind (fun seq => seq.get? j)
          = some ((TrialOrderTable.getD e []).getD j 0) := by decide
    have hlen : TRIP_ORDER_SEQUENCES.length = 10 := rfl
    simp only [get_trip_id_for_trip, hassign, Option.bind, hlen]
    exact key ((toi + n / 10) % 10) heff (n % 10) hj

/-- Witness for C1: participant `P1` with both indices 0 resolves trial 0 to
condition 0 and trip id 0, and trial 10 to condition 1 and trip id 4. -/
theorem c1_witness :
    get_condition_for_trip demoLedger pidP1 0 = some 0
    ∧ get_trip_id_for_trip demoLedger pidP1 0 = some 0
    ∧ get_condition_for_trip demoLedger pidP1 10 = some 1
    ∧ get_trip_id_for_trip demoLedger pidP1 10 = some 4 := by
  have h0 := (c1_resolvers_follow_tables.2.2 demoLedger pidP1 0 0 0
    (by decide) (by decide) (by decide) (by decide))
  have h10 := (c1_resolvers_follow_tables.2.2 demoLedger pidP1 0 0 10
    (by decide) (by decide) (by decide) (by decide))
  exact ⟨h0.1.trans (by decide), h0.2.trans (by decide),
    h10.1.trans (by decide), h10.2.trans (by decide)⟩

/-- Python `str.startswith` on our string model. -/
def pyStartsWith (s pre : String) : Bool :=
  List.isPrefixOf pre.data s.data

/-- Python `str.endswith` on our string model. -/
def pyEndsWith (s suf : String) : Bool :=
  List.isSuffixOf suf.data s.data

/-- Python `str.lower` (ASCII case folding, which is all the filter needs). -/
def pyLower (s : String) : String :=
  String.mk (s.data.map Char.toLower)

/-- The suffixes blocked by the bot filter in `assign_participant` (app.py). -/
def SUSPICIOUS_SUFFIX_LIST : List String :=
  [".php", ".ico", ".txt", ".xml", ".js", ".css", ".html", ".jsp", ".asp"]

/-- The exact (case-insensitively compared) names blocked by the bot filter. -/
def BLOCKED_NAME_LIST : List String :=
  ["favicon.ico", "robots.txt", "sitemap.xml", "wp-config.php"]

/-- The bot filter condition at the top of `assign_participant` (app.py):
a case-sensitive suffix match, a path separator check, and a case-insensitive
exact-name check. -/
def is_suspicious (pid : String) : Bool :=
  SUSPICIOUS_SUFFIX_LIST.any (fun suf => pyEndsWith pid suf)
  || pid.data.contains '/'
  || BLOCKED_NAME_LIST.contains (pyLower pid)

/-- Result of a request to the `assign_participant` endpoint. -/
inductive AssignOutcome where
  | blocked
  | returnVisit
  | assigned (coi toi : Nat)
deriving DecidableEq

/-- The state touched by allocation: the global ledger rows and the names of
the files in `participant_logs/` that end in `.csv` (the per-participant trial
logs; the other files in that directory never contain `.csv` in their names,
so they can never match the `startswith(pid + ".csv")` test and are omitted). -/
structure AllocState where
  assignments : List AssignmentRow
  logFiles : List String
deriving DecidableEq

/-- `get_next_assignment` (app.py): under the ledger lock, count the existing
rows and derive the two round-robin indices. -/
def get_next_assignment (assignments : List AssignmentRow) : Nat × Nat :=
  (assignments.length % 5, assignments.length % 10)

/-- `assign_participant` (app.py): apply the bot filter; then treat the
participant as returning when some log file name starts with `pid + ".csv"`;
otherwise append a fresh ledger row and create the participant's log file. -/
def assign_participant (st : AllocState) (pid : String) : AllocState × AssignOutcome :=
  if is_suspicious pid then (st, AssignOutcome.blocked)
  else if st.logFiles.any (fun f => pyStartsWith f (pid ++ ".csv")) then
    (st, AssignOutcome.returnVisit)
  else
    let p := get_next_assignment st.assignments
    ({ assignments := st.assignments ++ [⟨pid, p.1, p.2⟩],
       logFiles := st.logFiles ++ [pid ++ ".csv"] },
     AssignOutcome.assigned p.1 p.2)

/-- C2: the return-visit test matches log file names by prefix, so after
participant `A.csv.x` registers (creating `A.csv.x.csv`), a first-time request
for participant `A` is treated as a return visit: no ledger record is ever
appended for `A` and `A` has no assignment, contradicting the claim that a
fresh participant gets a record with indices `n mod 5` and `n mod 10`. -/
theorem c2_prefix_collision_bug :
    assign_participant ⟨[], []⟩ "A.csv.x"
      = (⟨[⟨"A.csv.x", 0, 0⟩], ["A.csv.x.csv"]⟩, AssignOutcome.assigned 0 0)
    ∧ assign_participant ⟨[⟨"A.csv.x", 0, 0⟩], ["A.csv.x.csv"]⟩ "A"
      = (⟨[⟨"A.csv.x", 0, 0⟩], ["A.csv.x.csv"]⟩, AssignOutcome.returnVisit)
    ∧ get_participant_assignment [⟨"A.csv.x", 0, 0⟩] "A" = none := by
  decide

/-- C10: every participant id matched by the bot filter — a blocked suffix,
a path separator, or (case-insensitively) a blocked exact name — is rejected
with a 404 and the state is left completely unchanged: no assignment, no log
file, no record of any kind. -/
theorem c10_bot_filter_rejects (st : AllocState) (pid : String)
    (h : SUSPICIOUS_SUFFIX_LIST.any (fun suf => pyEndsWith pid suf) = true
       ∨ pid.data.contains '/' = true
       ∨ BLOCKED_NAME_LIST.contains (pyLower pid) = true) :
    assign_participant st pid = (st, AssignOutcome.blocked) := by
  have hs : is_suspicious pid = true := by
    rcases h with h | h | h <;>
      simp only [is_suspicious, h, Bool.true_or, Bool.or_true]
  unfold assign_participant
  simp [hs]

/-- Witness for C10: `wp-config.PHP` passes none of the case-sensitive suffix
tests but matches the case-insensitive name list, and is rejected without any
state change; so is `x.php` via the suffix list. -/
theorem c10_witness :
    assign_participant ⟨[], []⟩ "wp-config.PHP" = (⟨[], []⟩, AssignOutcome.blocked)
    ∧ assign_participant ⟨[], []⟩ "x.php" = (⟨[], []⟩, AssignOutcome.blocked) := by
  constructor
  · exact c10_bot_filter_rejects ⟨[], []⟩ "wp-config.PHP" (Or.inr (Or.inr (by decide)))
  · exact c10_bot_filter_rejects ⟨[], []⟩ "x.php" (Or.inl (by decide))

/-- One data row of a participant's trial log CSV (app.py,
`create_participant_log` header). Client-supplied numbers are `Int`. -/
structure TrialRow where
  overall_trip_number : Int
  condition : Int
  trip_within_condition : Int
  trip_id : Int
  choice : String
  trip_reflection_rationale : String
  trip_likert_credit_lost : String
  trip_likert_impact_comparison : String
  walking_reflection_walking_reason : String
deriving DecidableEq

/-- The content stored per condition in `{pid}_first_ride_switches.json`. -/
structure SwitchRecord where
  overall_trip_number : Int
  condition : Int
  trip_within_condition : Int
  trip_id : Int
  choice : String
deriving DecidableEq

/-- The content of a `{pid}_reflection_{condition}.json` file, with the nested
payload collapsed to the string fields the CSV merge-update reads (missing JSON
keys read back as the empty string, as `dict.get` with default does). -/
structure ReflectionData where
  reflection_type : String
  walking_reason : String
  rationale : String
  credit_lost : String
  impact_comparison : String
deriving DecidableEq

/-- First-match lookup in an association list keyed by condition, mirroring a
`condition_{c}` key probe in a JSON dict or a per-condition file existence
check. -/
def lookupByCondition {α : Type} (xs : List (Int × α)) (c : Int) : Option α :=
  (xs.find? (fun p => p.1 == c)).map (fun p => p.2)

/-- `track_first_ride_switch` (app.py): when the submitted choice is not
walking and no switch is stored yet for this condition, store one built from
the submission (first write wins). -/
def track_first_ride_switch (switches : List (Int × SwitchRecord))
    (n cond tid : Int) (choice : String) : List (Int × SwitchRecord) :=
  if choice ≠ "walking" then
    match lookupByCondition switches cond with
    | some _ => switches
    | none => switches ++ [(cond, ⟨n, cond, Int.emod n 10, tid, choice⟩)]
  else switches

/-- The per-participant durable state: the trial log rows, the first-ride
switches JSON, and the per-condition reflection files. -/
structure PState where
  log : List TrialRow
  switches : List (Int × SwitchRecord)
  reflections : List (Int × ReflectionData)
deriving DecidableEq

/-- The state of a freshly created participant (empty log with header only). -/
def emptyPState : PState := ⟨[], [], []⟩

/-- The four reflection columns `log_trip_choice` (app.py) pre-fills into a new
row from any already-present reflection data for the row's condition. -/
def prefillColumns (rd : Option ReflectionData) : String × String × String × String :=
  match rd with
  | none => ("", "", "", "")
  | some d =>
    if d.reflection_type = "walking_only" then ("", "", "", d.walking_reason)
    else (d.rationale, d.credit_lost, d.impact_comparison, "")

/-- `log_trip_choice` (app.py): if a row with the submitted overall trip
number already exists, only the switch tracker runs; otherwise a new row is
appended (and the switch tracker runs as well). -/
def log_trip_choice (st : PState) (n cond twc tid : Int) (choice : String) : PState :=
  if st.log.any (fun r => r.overall_trip_number == n) then
    { st with switches := track_first_ride_switch st.switches n cond tid choice }
  else
    let rc := prefillColumns (lookupByCondition st.reflections cond)
    { st with
      log := st.log ++ [⟨n, cond, twc, tid, choice, rc.1, rc.2.1, rc.2.2.1, rc.2.2.2⟩],
      switches := track_first_ride_switch st.switches n cond tid choice }

/-- The JSON body POSTed to `complete_reflection` (app.py). -/
structure ReflectionPayload where
  reflection_type : String
  walking_reason : String
  rationale : String
  credit_lost : String
  impact_comparison : String
deriving DecidableEq

/-- How `complete_reflection` (app.py) turns the POSTed body into the stored
reflection data: `walking_only` exactly when the body says so, otherwise
`switch_based`. -/
def reflectionDataOfPayload (p : Option ReflectionPayload) : ReflectionData :=
  match p with
  | some q =>
    if q.reflection_type = "walking_only" then
      ⟨"walking_only", q.walking_reason, "", "", ""⟩
    else
      ⟨"switch_based", "", q.rationale, q.credit_lost, q.impact_comparison⟩
  | none => ⟨"switch_based", "", "", "", ""⟩

/-- The per-row update of `update_csv_with_reflection_data` (app.py): rows of
the target condition get their four reflection columns overwritten according
to the reflection variant; all other rows are untouched. -/
def applyReflectionToRow (rd : Option ReflectionData) (cond : Int) (row : TrialRow) :
    TrialRow :=
  if row.condition == cond then
    match rd with
    | some d =>
      if d.reflection_type = "walking_only" then
        { row with trip_reflection_rationale := "",
                   trip_likert_credit_lost := "",
                   trip_likert_impact_comparison := "",
                   walking_reflection_walking_reason := d.walking_reason }
      else
        { row with trip_reflection_rationale := d.rationale,
                   trip_likert_credit_lost := d.credit_lost,
                   trip_likert_impact_comparison := d.impact_comparison,
                   walking_reflection_walking_reason := "" }
    | none => row
  else row

/-- `update_csv_with_reflection_data` (app.py): rewrite every row through
`applyReflectionToRow` and write the file back. -/
def update_csv_with_reflection_data (log : List TrialRow) (rd : Option ReflectionData)
    (cond : Int) : List TrialRow :=
  log.map (applyReflectionToRow rd cond)

/-- Overwrite-or-append for the per-condition reflection file (`json.dump`
replaces the whole file). -/
def upsertReflection (xs : List (Int × ReflectionData)) (c : Int) (d : ReflectionData) :
    List (Int × ReflectionData) :=
  match lookupByCondition xs c with
  | some _ => xs.map (fun p => if p.1 == c then (c, d) else p)
  | none => xs ++ [(c, d)]

/-- `complete_reflection` (app.py): unconditionally write the reflection file
for the condition, then merge the reflection data into the trial log CSV. -/
def complete_reflection (st : PState) (cond : Int) (payload : Option ReflectionPayload) :
    PState :=
  let rd := reflectionDataOfPayload payload
  { st with
    reflections := upsertReflection st.reflections cond rd,
    log := update_csv_with_reflection_data st.log (some rd) cond }

/-- The `max_overall` scan shared by `show_trip`, `check_switch` and
`trip_reflection` (app.py): fold `max` over the rows starting from `-1`. -/
def maxOverall (log : List TrialRow) : Int :=
  log.foldl (fun m r => max m r.overall_trip_number) (-1)

/-- The `trip_count = max_overall + 1 if max_overall >= 0 else 0` computation
(app.py); this is the spec's `nextTrialNumber`. -/
def trip_count (log : List TrialRow) : Nat :=
  if 0 ≤ maxOverall log then (maxOverall log + 1).toNat else 0

/-- C7: submitting a reflection for a condition rewrites the trial log through
a per-row merge that overwrites only the four reflection columns of the rows
of that condition — setting `walkingReason` and clearing the other three for
`walking_only`, setting the other three and clearing `walkingReason` otherwise
— and leaves rows of other conditions, all non-reflection columns, and the
number of rows unchanged. -/
theorem c7_merge_update_frame (st : PState) (cond : Int) (p : ReflectionPayload) :
    (complete_reflection st cond (some p)).log.length = st.log.length
    ∧ ∀ (i : Nat) (h : i < st.log.length)
        (h2 : i < (complete_reflection st cond (some p)).log.length),
        ((st.log.get ⟨i, h⟩).condition ≠ cond →
          (complete_reflection st cond (some p)).log.get ⟨i, h2⟩ = st.log.get ⟨i, h⟩)
        ∧ ((st.log.get ⟨i, h⟩).condition = cond →
          ((complete_reflection st cond (some p)).log.get ⟨i, h2⟩).overall_trip_number
              = (st.log.get ⟨i, h⟩).overall_trip_number
          ∧ ((complete_reflection st cond (some p)).log.get ⟨i, h2⟩).condition
              = (st.log.get ⟨i, h⟩).condition
          ∧ ((complete_reflection st cond (some p)).log.get ⟨i, h2⟩).trip_within_condition
              = (st.log.get ⟨i, h⟩).trip_within_condition
          ∧ ((complete_reflection st cond (some p)).log.get ⟨i, h2⟩).trip_id
              = (st.log.get ⟨i, h⟩).trip_id
          ∧ ((complete_reflection st cond (some p)).log.get ⟨i, h2⟩).choice
              = (st.log.get ⟨i, h⟩).choice
          ∧ (p.reflection_type = "walking_only" →
              ((complete_reflection st cond (some p)).log.get ⟨i, h2⟩).walking_reflection_walking_reason
                  = p.walking_reason
              ∧ ((complete_reflection st cond (some p)).log.get ⟨i, h2⟩).trip_reflection_rationale = ""
              ∧ ((complete_reflection st cond (some p)).log.get ⟨i, h2⟩).trip_likert_credit_lost = ""
              ∧ ((complete_reflection st cond (some p)).log.get ⟨i, h2⟩).trip_likert_impact_comparison = "")
          ∧ (p.reflection_type ≠ "walking_only" →
              ((complete_reflection st cond (some p)).log.get ⟨i, h2⟩).trip_reflection_rationale
                  = p.rationale
              ∧ ((complete_reflection st cond (some p)).log.get ⟨i, h2⟩).trip_likert_credit_lost
                  = p.credit_lost
              ∧ ((complete_reflection st cond (some p)).log.get ⟨i, h2⟩).trip_likert_impact_comparison
                  = p.impact_comparison
              ∧ ((complete_reflection st cond (some p)).log.get ⟨i, h2⟩).walking_reflection_walking_reason
                  = "")) := by
  constructor
  · simp [complete_reflection, update_csv_with_reflection_data]
  · intro i h h2
    simp only [List.get_eq_getElem]
    have hmap : (complete_reflection st cond (some p)).log[i]
        = applyReflectionToRow (some (reflectionDataOfPayload (some p))) cond st.log[i] := by
      simp [complete_reflection, update_csv_with_reflection_data]
    constructor
    · intro hne
      rw [hmap]
      unfold applyReflectionToRow
      rw [if_neg (by simpa using hne)]
    · intro heq
      rw [hmap]
      by_cases hw : p.reflection_type = "walking_only" <;>
        simp [applyReflectionToRow, reflectionDataOfPayload, heq, hw]

/-- A walking trial row of condition 0 for the C7 demo state. -/
def demoRowC0 : TrialRow := ⟨0, 0, 0, 5, "walking", "", "", "", ""⟩

/-- An eco-ride trial row of condition 1 for the C7 demo state. -/
def demoRowC1 : TrialRow := ⟨10, 1, 0, 4, "eco_ride", "", "", "", ""⟩

/-- Demo per-participant state with one row in each of two conditions. -/
def demoStB : PState := ⟨[demoRowC0, demoRowC1], [], []⟩

/-- A walking-only reflection payload for the C7 witness. -/
def demoPayloadW : ReflectionPayload := ⟨"walking_only", "w", "", "", ""⟩

/-- Witness for C7: merging a walking-only reflection for condition 0 into the
demo state leaves the condition-1 row untouched, and on the condition-0 row
sets the walking reason while keeping the recorded choice. -/
theorem c7_witness :
    ∃ h2a : 0 < (complete_reflection demoStB 0 (some demoPayloadW)).log.length,
    ∃ h2b : 1 < (complete_reflection demoStB 0 (some demoPayloadW)).log.length,
      (complete_reflection demoStB 0 (some demoPayloadW)).log.get ⟨1, h2b⟩ = demoRowC1
      ∧ ((complete_reflection demoStB 0 (some demoPayloadW)).log.get ⟨0, h2a⟩).walking_reflection_walking_reason
          = demoPayloadW.walking_reason
      ∧ ((complete_reflection demoStB 0 (some demoPayloadW)).log.get ⟨0, h2a⟩).choice
          = demoRowC0.choice := by
  have hlen := (c7_merge_update_frame demoStB 0 demoPayloadW).1
  have h2a : 0 < (complete_reflection demoStB 0 (some demoPayloadW)).log.length := by
    rw [hlen]; decide
  have h2b : 1 < (complete_reflection demoStB 0 (some demoPayloadW)).log.length := by
    rw [hlen]; decide
  refine ⟨h2a, h2b, ?_, ?_, ?_⟩
  · exact ((c7_merge_update_frame demoStB 0 demoPayloadW).2 1 (by decide) h2b).1 (by decide)
  · exact (((c7_merge_update_frame demoStB 0 demoPayloadW).2 0 (by decide) h2a).2
      (by decide)).2.2.2.2.2.1 (by decide) |>.1
  · exact (((c7_merge_update_frame demoStB 0 demoPayloadW).2 0 (by decide) h2a).2
      (by decide)).2.2.2.2.1

/-- One POST to `/log/<pid>/trip_choice` (app.py, `log_event` with event type
`trip_choice`): the client-supplied numbers and choice string. -/
structure ChoiceCall where
  n : Int
  cond : Int
  twc : Int
  tid : Int
  choice : String
deriving DecidableEq

/-- Apply one recorded choice to the per-participant state. -/
def stepChoice (st : PState) (k : ChoiceCall) : PState :=
  log_trip_choice st k.n k.cond k.twc k.tid k.choice

/-- The per-participant state after a sequence of trip-choice submissions,
starting from a freshly created (empty) log. -/
def runChoices (calls : List ChoiceCall) : PState :=
  calls.foldl stepChoice emptyPState

/-- When a row with the submitted trip number exists, the log is unchanged. -/
theorem log_trip_choice_log_of_dup (st : PState) (n cond twc tid : Int) (ch : String)
    (h : st.log.any (fun r => r.overall_trip_number == n) = true) :
    (log_trip_choice st n cond twc tid ch).log = st.log := by
  unfold log_trip_choice
  rw [if_pos h]

/-- When no row with the submitted trip number exists, exactly one row is
appended, carrying the submitted fields. -/
theorem log_trip_choice_log_of_new (st : PState) (n cond twc tid : Int) (ch : String)
    (h : st.log.any (fun r => r.overall_trip_number == n) = false) :
    (log_trip_choice st n cond twc tid ch).log
      = st.log ++ [⟨n, cond, twc, tid, ch,
          (prefillColumns (lookupByCondition st.reflections cond)).1,
          (prefillColumns (lookupByCondition st.reflections cond)).2.1,
          (prefillColumns (lookupByCondition st.reflections cond)).2.2.1,
          (prefillColumns (lookupByCondition st.reflections cond)).2.2.2⟩] := by
  unfold log_trip_choice
  rw [if_neg (by simp [h])]

/-- One step of `stepChoice` preserves distinctness of the logged trial
numbers. -/
theorem stepChoice_nodup (st : PState) (k : ChoiceCall)
    (hnd : (st.log.map (fun r => r.overall_trip_number)).Nodup) :
    ((stepChoice st k).log.map (fun r => r.overall_trip_number)).Nodup := by
  unfold stepChoice
  cases hany : st.log.any (fun r => r.overall_trip_number == k.n) with
  | true => rw [log_trip_choice_log_of_dup st k.n k.cond k.twc k.tid k.choice hany]; exact hnd
  | false =>
    rw [log_trip_choice_log_of_new st k.n k.cond k.twc k.tid k.choice hany]
    rw [List.map_append]
    simp only [List.map_cons, List.map_nil]
    rw [List.nodup_append]
    refine ⟨hnd, List.nodup_singleton _, ?_⟩
    intro x hx hx1
    simp only [List.mem_singleton] at hx1
    subst hx1
    obtain ⟨r, hr, hrn⟩ := List.mem_map.mp hx
    have hcontra : st.log.any (fun r => r.overall_trip_number == k.n) = true :=
      List.any_eq_true.mpr ⟨r, hr, by simp [hrn]⟩
    rw [hany] at hcontra
    exact Bool.false_ne_true hcontra

/-- Every row in the log after a run of choice submissions is either an
original row of the start state or carries the fields of one of the calls. -/
theorem runChoices_provenance : ∀ (calls : List ChoiceCall) (st : PState),
    ∀ r ∈ (calls.foldl stepChoice st).log,
      r ∈ st.log ∨ ∃ k ∈ calls, r.overall_trip_number = k.n
        ∧ r.condition = k.cond ∧ r.choice = k.choice := by
  intro calls
  induction calls with
  | nil => intro st r hr; exact Or.inl hr
  | cons k rest ih =>
    intro st r hr
    rw [List.foldl_cons] at hr
    rcases ih (stepChoice st k) r hr with hmem | ⟨k2, hk2, hf⟩
    · unfold stepChoice at hmem
      cases hany : st.log.any (fun r => r.overall_trip_number == k.n) with
      | true =>
        rw [log_trip_choice_log_of_dup st k.n k.cond k.twc k.tid k.choice hany] at hmem
        exact Or.inl hmem
      | false =>
        rw [log_trip_choice_log_of_new st k.n k.cond k.twc k.tid k.choice hany] at hmem
        rcases List.mem_append.mp hmem with hmem | hmem
        · exact Or.inl hmem
        · simp only [List.mem_singleton] at hmem
          subst hmem
          exact Or.inr ⟨k, List.mem_cons_self k rest, rfl, rfl, rfl⟩
    · exact Or.inr ⟨k2, List.mem_cons_of_mem k hk2, hf⟩

/-- Nodup of the logged trial numbers after any run from any start state with
distinct trial numbers. -/
theorem runChoices_nodup : ∀ (calls : List ChoiceCall) (st : PState),
    (st.log.map (fun r => r.overall_trip_number)).Nodup →
    (((calls.foldl stepChoice st).log.map (fun r => r.overall_trip_number))).Nodup := by
  intro calls
  induction calls with
  | nil => intro st h; exact h
  | cons k rest ih =>
    intro st h
    rw [List.foldl_cons]
    exact ih (stepChoice st k) (stepChoice_nodup st k h)

/-- C5 counterexample: a single trip-choice submission with trial number 50 is
accepted and logged, so the logged trial numbers are not a subset of 0..49:
`log_trip_choice` never validates the range. -/
theorem c5_counterexample :
    ¬ (∀ r ∈ (runChoices [⟨50, 0, 0, 0, "walking"⟩]).log,
        0 ≤ r.overall_trip_number ∧ r.overall_trip_number ≤ 49) := by
  decide

/-- C5 as amended: after any sequence of trip-choice submissions the logged
trial numbers have no duplicates (scan-before-append), they lie in 0..49
whenever every submitted trial number does (the endpoint itself does not
validate the range), recording a trial number leaves exactly one row for it,
and resubmitting an already-recorded trial number leaves the log unchanged. -/
theorem c5_log_dedup (calls : List ChoiceCall) :
    ((runChoices calls).log.map (fun r => r.overall_trip_number)).Nodup
    ∧ ((∀ k ∈ calls, 0 ≤ k.n ∧ k.n ≤ 49) →
        ∀ r ∈ (runChoices calls).log,
          0 ≤ r.overall_trip_number ∧ r.overall_trip_number ≤ 49)
    ∧ (∀ (k : ChoiceCall),
        ((runChoices (calls ++ [k])).log.filter
            (fun r => r.overall_trip_number == k.n)).length = 1)
    ∧ (∀ (st : PState) (n cond twc tid : Int) (ch : String),
        st.log.any (fun r => r.overall_trip_number == n) = true →
        (log_trip_choice st n cond twc tid ch).log = st.log) := by
  refine ⟨?_, ?_, ?_, fun st n cond twc tid ch h => log_trip_choice_log_of_dup st n cond twc tid ch h⟩
  · exact runChoices_nodup calls emptyPState (by simp [emptyPState])
  · intro hin r hr
    rcases runChoices_provenance calls emptyPState r hr with hmem | ⟨k, hk, hf, _, _⟩
    · simp [emptyPState] at hmem
    · rw [hf]
      exact hin k hk
  · intro k
    have hnd : ((runChoices calls).log.map (fun r => r.overall_trip_number)).Nodup :=
      runChoices_nodup calls emptyPState (by simp [emptyPState])
    have hstep : runChoices (calls ++ [k]) = stepChoice (runChoices calls) k := by
      unfold runChoices
      rw [List.foldl_append, List.foldl_cons, List.foldl_nil]
    rw [hstep]
    unfold stepChoice
    cases hany : (runChoices calls).log.any (fun r => r.overall_trip_number == k.n) with
    | true =>
      rw [log_trip_choice_log_of_dup _ k.n k.cond k.twc k.tid k.choice hany]
      obtain ⟨r, hr, hrk⟩ := List.any_eq_true.mp hany
      simp only [beq_iff_eq] at hrk
      have hmem : k.n ∈ (runChoices calls).log.map (fun r => r.overall_trip_number) :=
        List.mem_map.mpr ⟨r, hr, hrk⟩
      have hcount := List.count_eq_one_of_mem hnd hmem
      rw [← hcount]
      rw [List.count, List.countP_map, List.countP_eq_length_filter]
      rfl
    | false =>
      rw [log_trip_choice_log_of_new _ k.n k.cond k.twc k.tid k.choice hany]
      rw [List.filter_append]
      have hnil : (runChoices calls).log.filter (fun r => r.overall_trip_number == k.n) = [] := by
        rw [List.filter_eq_nil_iff]
        intro r hr hbeq
        have hcontra : (runChoices calls).log.any (fun r => r.overall_trip_number == k.n) = true :=
          List.any_eq_true.mpr ⟨r, hr, hbeq⟩
        rw [hany] at hcontra
        exact Bool.false_ne_true hcontra
      rw [hnil]
      simp

/-- Witness for C5: a walking choice on trial 3 then an eco-ride resubmission
of trial 3 yields a duplicate-free log within range, and exactly one row for
trial 3. -/
theorem c5_witness :
    ((runChoices [⟨3, 0, 3, 7, "walking"⟩]).log.map (fun r => r.overall_trip_number)).Nodup
    ∧ (∀ r ∈ (runChoices [⟨3, 0, 3, 7, "walking"⟩]).log,
        0 ≤ r.overall_trip_number ∧ r.overall_trip_number ≤ 49)
    ∧ ((runChoices ([⟨3, 0, 3, 7, "walking"⟩] ++ [⟨3, 0, 3, 7, "eco_ride"⟩])).log.filter
        (fun r => r.overall_trip_number == (3 : Int))).length = 1 := by
  refine ⟨(c5_log_dedup [⟨3, 0, 3, 7, "walking"⟩]).1,
    (c5_log_dedup [⟨3, 0, 3, 7, "walking"⟩]).2.1 (by decide),
    (c5_log_dedup [⟨3, 0, 3, 7, "walking"⟩]).2.2.1 ⟨3, 0, 3, 7, "eco_ride"⟩⟩

/-- First-biased choice between two options (helper for lookup lemmas). -/
def optOr {α : Type} (a b : Option α) : Option α :=
  match a with
  | some x => some x
  | none => b

/-- `optOr` with an empty second argument is the identity. -/
theorem optOr_none {α : Type} (a : Option α) : optOr a none = a := by
  cases a <;> rfl

/-- `optOr` is associative. -/
theorem optOr_assoc {α : Type} (a b d : Option α) :
    optOr (optOr a b) d = optOr a (optOr b d) := by
  cases a <;> cases b <;> rfl

/-- Appending one keyed entry only changes lookups that previously missed and
hit the appended key. -/
theorem lookupByCondition_append {α : Type} (xs : List (Int × α)) (d : Int) (v : α)
    (c : Int) :
    lookupByCondition (xs ++ [(d, v)]) c
      = optOr (lookupByCondition xs c) (if d = c then some v else none) := by
  induction xs with
  | nil =>
    simp only [List.nil_append, lookupByCondition, List.find?, optOr]
    by_cases h : d = c
    · simp [h]
    · have hb : (d == c) = false := beq_eq_false_iff_ne.mpr h
      simp [hb, h]
  | cons hd tl ih =>
    by_cases h : hd.1 == c
    · simp [lookupByCondition, List.find?, h, optOr]
    · simp only [List.cons_append, lookupByCondition, List.find?, h] at *
      exact ih

/-- How `track_first_ride_switch` changes a lookup: an existing record always
wins, and a new record appears exactly for the submitted condition when the
submitted choice is not walking. -/
theorem track_first_ride_switch_lookup (sw : List (Int × SwitchRecord))
    (n cond tid : Int) (ch : String) (c : Int) :
    lookupByCondition (track_first_ride_switch sw n cond tid ch) c
      = optOr (lookupByCondition sw c)
          (if cond = c ∧ ch ≠ "walking" then
            some ⟨n, cond, Int.emod n 10, tid, ch⟩ else none) := by
  unfold track_first_ride_switch
  by_cases hw : ch = "walking"
  · rw [if_neg (by simp [hw])]
    rw [if_neg (by simp [hw]), optOr_none]
  · rw [if_pos hw]
    cases hl : lookupByCondition sw cond with
    | some s =>
      by_cases hc : cond = c
      · subst hc
        rw [hl, if_pos ⟨rfl, hw⟩]
        rfl
      · rw [if_neg (by simp [hc]), optOr_none]
    | none =>
      rw [lookupByCondition_append]
      by_cases hc : cond = c
      · rw [if_pos hc, if_pos ⟨hc, hw⟩]
      · rw [if_neg hc, if_neg (by simp [hc])]

/-- The switches component is updated the same way on both branches of
`log_trip_choice` (the tracker runs even for a duplicate trial number). -/
theorem stepChoice_switches (st : PState) (k : ChoiceCall) :
    (stepChoice st k).switches
      = track_first_ride_switch st.switches k.n k.cond k.tid k.choice := by
  unfold stepChoice log_trip_choice
  split <;> rfl

/-- After a run of choice submissions, the switch record for a condition is the
pre-existing one, or else is built from the chronologically first submission
with that condition and a non-walking choice. -/
theorem runChoices_switch_lookup : ∀ (calls : List ChoiceCall) (st : PState) (c : Int),
    lookupByCondition ((calls.foldl stepChoice st).switches) c
      = optOr (lookupByCondition st.switches c)
          ((calls.find? (fun k => k.cond == c && k.choice != "walking")).map
            (fun k => (⟨k.n, k.cond, Int.emod k.n 10, k.tid, k.choice⟩ : SwitchRecord))) := by
  intro calls
  induction calls with
  | nil =>
    intro st c
    rw [List.foldl_nil]
    simp [optOr_none]
  | cons k rest ih =>
    intro st c
    rw [List.foldl_cons, ih (stepChoice st k) c, stepChoice_switches,
      track_first_ride_switch_lookup]
    by_cases hk : (k.cond == c && k.choice != "walking") = true
    · have hcnd : k.cond = c ∧ k.choice ≠ "walking" := by
        simpa using hk
      have hk2 : (fun q : ChoiceCall => q.cond == c && q.choice != "walking") k = true := hk
      rw [List.find?_cons_of_pos rest hk2, if_pos hcnd, optOr_assoc]
      rfl
    · have hcnd : ¬ (k.cond = c ∧ k.choice ≠ "walking") := by
        intro hand
        exact hk (by simp [hand.1, hand.2])
      have hk2 : ¬ ((fun q : ChoiceCall => q.cond == c && q.choice != "walking") k = true) := hk
      rw [List.find?_cons_of_neg rest hk2, if_neg hcnd, optOr_none]

/-- C9 counterexample: recording trial 0 as walking and then resubmitting
trial 0 as an eco ride creates a switch record for condition 0 although no
logged trial of condition 0 has a non-walking choice — the tracker also runs
on the duplicate path of `log_trip_choice`, so the spec's "iff" fails. -/
theorem c9_counterexample :
    lookupByCondition
        (runChoices [⟨0, 0, 0, 0, "walking"⟩, ⟨0, 0, 0, 0, "eco_ride"⟩]).switches 0 ≠ none
    ∧ ∀ r ∈ (runChoices [⟨0, 0, 0, 0, "walking"⟩, ⟨0, 0, 0, 0, "eco_ride"⟩]).log,
        ¬ (r.condition = 0 ∧ r.choice ≠ "walking") := by
  decide

/-- C9 as amended: after any sequence of trip-choice submissions, the switch
record for a condition exists iff some submission (possibly a duplicate
resubmission of an already-recorded trial) had that condition and a
non-walking choice; it is built from the chronologically first such
submission and is never overwritten (first write wins). In particular, if a
logged trial of the condition has a non-walking choice, the record exists. -/
theorem c9_switch_first_write_wins (calls : List ChoiceCall) :
    (∀ c : Int,
        lookupByCondition (runChoices calls).switches c
          = (calls.find? (fun k => k.cond == c && k.choice != "walking")).map
              (fun k => (⟨k.n, k.cond, Int.emod k.n 10, k.tid, k.choice⟩ : SwitchRecord)))
    ∧ (∀ r ∈ (runChoices calls).log, r.choice ≠ "walking" →
        lookupByCondition (runChoices calls).switches r.condition ≠ none) := by
  have hmain : ∀ c : Int,
      lookupByCondition (runChoices calls).switches c
        = (calls.find? (fun k => k.cond == c && k.choice != "walking")).map
            (fun k => (⟨k.n, k.cond, Int.emod k.n 10, k.tid, k.choice⟩ : SwitchRecord)) := by
    intro c
    have h := runChoices_switch_lookup calls emptyPState c
    simpa [emptyPState, lookupByCondition, optOr] using h
  refine ⟨hmain, ?_⟩
  intro r hr hch
  rcases runChoices_provenance calls emptyPState r hr with hmem | ⟨k, hk, hn, hc, hcho⟩
  · simp [emptyPState] at hmem
  · rw [hmain r.condition]
    cases hf : calls.find? (fun k => k.cond == r.condition && k.choice != "walking") with
    | none =>
      exfalso
      have hnone := List.find?_eq_none.mp hf k hk
      apply hnone
      simp [hc, ← hcho, hch]
    | some k2 => simp

/-- Witness for C9: with an eco ride on trial 5 and a regular ride on trial 6,
both in condition 2, the switch record is the one from the chronologically
first submission and is present. -/
theorem c9_witness :
    lookupByCondition
        (runChoices [⟨5, 2, 5, 7, "eco_ride"⟩, ⟨6, 2, 6, 3, "regular_ride"⟩]).switches 2
      = some ⟨5, 2, 5, 7, "eco_ride"⟩
    ∧ lookupByCondition
        (runChoices [⟨5, 2, 5, 7, "eco_ride"⟩, ⟨6, 2, 6, 3, "regular_ride"⟩]).switches 2
      ≠ none := by
  have h := c9_switch_first_write_wins [⟨5, 2, 5, 7, "eco_ride"⟩, ⟨6, 2, 6, 3, "regular_ride"⟩]
  refine ⟨(h.1 2).trans (by decide), ?_⟩
  exact h.2 ⟨5, 2, 5, 7, "eco_ride", "", "", "", ""⟩ (by decide) (by decide)

/-- The loop body of the anchor re-scan in `trip_reflection` (app.py): keep the
row with the strictly smallest trip id among rows of the condition whose
choice is not walking. -/
def bestStep (cond : Int) (best : Option TrialRow) (r : TrialRow) : Option TrialRow :=
  if r.condition == cond && r.choice != "walking" then
    match best with
    | none => some r
    | some b => if r.trip_id < b.trip_id then some r else some b
  else best

/-- The anchor re-scan of `trip_reflection` (app.py): fold the loop body over
the log. -/
def bestRideRow (log : List TrialRow) (cond : Int) : Option TrialRow :=
  log.foldl (bestStep cond) none

/-- What the reflection page presents. -/
inductive ReflectionView where
  | walkingOnly
  | switchBased (overall tid : Int) (choice : String)
deriving DecidableEq

/-- The routing part of the `trip_reflection` handler (app.py): walking-only
when no switch record exists; otherwise switch-based, anchored at the re-scan
result when the re-scan found a row, else at the stored switch record. -/
def trip_reflection (switchData : Option SwitchRecord) (log : List TrialRow) (cond : Int) :
    ReflectionView :=
  match switchData with
  | none => ReflectionView.walkingOnly
  | some s =>
    match bestRideRow log cond with
    | some b => ReflectionView.switchBased b.overall_trip_number b.trip_id b.choice
    | none => ReflectionView.switchBased s.overall_trip_number s.trip_id s.choice

/-- If the re-scan fold comes back empty, it started empty and no row of the
log matches the condition-and-non-walking test. -/
theorem bestStep_foldl_none (cond : Int) : ∀ (log : List TrialRow) (acc : Option TrialRow),
    log.foldl (bestStep cond) acc = none →
    acc = none ∧ ∀ r ∈ log, ¬ (r.condition = cond ∧ r.choice ≠ "walking") := by
  intro log
  induction log with
  | nil => intro acc h; exact ⟨h, by simp⟩
  | cons r tl ih =>
    intro acc h
    rw [List.foldl_cons] at h
    obtain ⟨hstep, htl⟩ := ih (bestStep cond acc r) h
    by_cases hm : (r.condition == cond && r.choice != "walking") = true
    · exfalso
      unfold bestStep at hstep
      rw [if_pos hm] at hstep
      cases acc with
      | none => exact Option.some_ne_none r hstep
      | some a =>
        have hstep2 : (if r.trip_id < a.trip_id then some r else some a) = none := hstep
        by_cases hlt : r.trip_id < a.trip_id
        · rw [if_pos hlt] at hstep2; exact Option.some_ne_none r hstep2
        · rw [if_neg hlt] at hstep2; exact Option.some_ne_none a hstep2
    · unfold bestStep at hstep
      rw [if_neg hm] at hstep
      refine ⟨hstep, ?_⟩
      intro r2 hr2
      rcases List.mem_cons.mp hr2 with hr2 | hr2
      · subst hr2
        intro hand
        exact hm (by simp [hand.1, hand.2])
      · exact htl r2 hr2

/-- If the re-scan fold returns a row, that row is the accumulator or a
matching row of the log. -/
theorem bestStep_foldl_sound (cond : Int) : ∀ (log : List TrialRow) (acc : Option TrialRow)
    (b : TrialRow), log.foldl (bestStep cond) acc = some b →
    acc = some b ∨ (b ∈ log ∧ b.condition = cond ∧ b.choice ≠ "walking") := by
  intro log
  induction log with
  | nil => intro acc b h; exact Or.inl h
  | cons r tl ih =>
    intro acc b h
    rw [List.foldl_cons] at h
    rcases ih (bestStep cond acc r) b h with hstep | ⟨hmem, hc, hch⟩
    · unfold bestStep at hstep
      by_cases hm : (r.condition == cond && r.choice != "walking") = true
      · rw [if_pos hm] at hstep
        have hmprop : r.condition = cond ∧ r.choice ≠ "walking" := by simpa using hm
        cases acc with
        | none =>
          have hb : r = b := Option.some.inj hstep
          subst hb
          exact Or.inr ⟨List.mem_cons_self r tl, hmprop.1, hmprop.2⟩
        | some a =>
          have hstep2 : (if r.trip_id < a.trip_id then some r else some a) = some b := hstep
          by_cases hlt : r.trip_id < a.trip_id
          · rw [if_pos hlt] at hstep2
            have hb : r = b := Option.some.inj hstep2
            subst hb
            exact Or.inr ⟨List.mem_cons_self r tl, hmprop.1, hmprop.2⟩
          · rw [if_neg hlt] at hstep2
            exact Or.inl hstep2
      · rw [if_neg hm] at hstep
        exact Or.inl hstep
    · exact Or.inr ⟨List.mem_cons_of_mem r hmem, hc, hch⟩

/-- The re-scan result has a trip id no larger than the accumulator's and than
that of every matching row of the log. -/
theorem bestStep_foldl_min (cond : Int) : ∀ (log : List TrialRow) (acc : Option TrialRow)
    (b : TrialRow), log.foldl (bestStep cond) acc = some b →
    (∀ a, acc = some a → b.trip_id ≤ a.trip_id)
    ∧ (∀ r ∈ log, r.condition = cond → r.choice ≠ "walking" → b.trip_id ≤ r.trip_id) := by
  intro log
  induction log with
  | nil =>
    intro acc b h
    refine ⟨?_, by simp⟩
    intro a ha
    rw [List.foldl_nil] at h
    rw [ha] at h
    rw [Option.some.inj h]
  | cons r tl ih =>
    intro acc b h
    rw [List.foldl_cons] at h
    obtain ⟨ih1, ih2⟩ := ih (bestStep cond acc r) b h
    constructor
    · intro a ha
      by_cases hm : (r.condition == cond && r.choice != "walking") = true
      · have hstep : bestStep cond acc r
            = if r.trip_id < a.trip_id then some r else some a := by
          unfold bestStep
          rw [if_pos hm, ha]
        by_cases hlt : r.trip_id < a.trip_id
        · rw [if_pos hlt] at hstep
          have := ih1 r hstep
          omega
        · rw [if_neg hlt] at hstep
          exact ih1 a hstep
      · have hstep : bestStep cond acc r = some a := by
          unfold bestStep
          rw [if_neg hm, ha]
        exact ih1 a hstep
    · intro r2 hr2 hc hch
      rcases List.mem_cons.mp hr2 with hr2 | hr2
      · subst hr2
        have hm : (r2.condition == cond && r2.choice != "walking") = true := by
          simp [hc, hch]
        cases hacc : acc with
        | none =>
          have hstep : bestStep cond acc r2 = some r2 := by
            unfold bestStep
            rw [if_pos hm, hacc]
          exact ih1 r2 hstep
        | some a =>
          by_cases hlt : r2.trip_id < a.trip_id
          · have hstep : bestStep cond acc r2 = some r2 := by
              unfold bestStep
              rw [if_pos hm, hacc]
              exact if_pos hlt
            exact ih1 r2 hstep
          · have hstep : bestStep cond acc r2 = some a := by
              unfold bestStep
              rw [if_pos hm, hacc]
              exact if_neg hlt
            have := ih1 a hstep
            omega
      · exact ih2 r2 hr2 hc hch

/-- C4: the reflection variant is walking-only exactly when no switch record
exists for the condition; otherwise it is switch-based and, whenever some
logged trial of the condition has a non-walking choice, the presented anchor
is such a row with the minimum trip id among them — a property of the row
multiset, independent of the chronological order of the log. -/
theorem c4_reflection_anchor (sd : Option SwitchRecord) (log : List TrialRow) (cond : Int) :
    (trip_reflection sd log cond = ReflectionView.walkingOnly ↔ sd = none)
    ∧ (∀ s : SwitchRecord, sd = some s →
        ∀ r0 ∈ log, r0.condition = cond → r0.choice ≠ "walking" →
        ∃ b ∈ log, b.condition = cond ∧ b.choice ≠ "walking"
          ∧ trip_reflection sd log cond
              = ReflectionView.switchBased b.overall_trip_number b.trip_id b.choice
          ∧ ∀ r ∈ log, r.condition = cond → r.choice ≠ "walking" →
              b.trip_id ≤ r.trip_id) := by
  constructor
  · cases sd with
    | none => simp [trip_reflection]
    | some s =>
      simp only [trip_reflection]
      cases hbest : bestRideRow log cond <;> simp
  · intro s hsd r0 hr0 hc hch
    subst hsd
    cases hbest : bestRideRow log cond with
    | none =>
      exfalso
      have := (bestStep_foldl_none cond log none hbest).2 r0 hr0
      exact this ⟨hc, hch⟩
    | some b =>
      have hsound := bestStep_foldl_sound cond log none b hbest
      have hmin := (bestStep_foldl_min cond log none b hbest).2
      rcases hsound with hbad | ⟨hmem, hbc, hbch⟩
      · exact absurd hbad (by simp)
      · refine ⟨b, hmem, hbc, hbch, ?_, hmin⟩
        simp only [trip_reflection, hbest]

/-- Witness for C4: with a stored switch at trial 3 (trip id 7) and logged
rides at trip ids 7 and 2 in condition 0, the presented anchor has the
minimum trip id among the ride rows. -/
theorem c4_witness :
    ∃ b ∈ [(⟨3, 0, 3, 7, "eco_ride", "", "", "", ""⟩ : TrialRow),
           ⟨7, 0, 7, 2, "regular_ride", "", "", "", ""⟩],
      b.condition = 0 ∧ b.choice ≠ "walking"
      ∧ trip_reflection (some ⟨3, 0, 3, 7, "eco_ride"⟩)
          [⟨3, 0, 3, 7, "eco_ride", "", "", "", ""⟩,
           ⟨7, 0, 7, 2, "regular_ride", "", "", "", ""⟩] 0
          = ReflectionView.switchBased b.overall_trip_number b.trip_id b.choice
      ∧ ∀ r ∈ [(⟨3, 0, 3, 7, "eco_ride", "", "", "", ""⟩ : TrialRow),
               ⟨7, 0, 7, 2, "regular_ride", "", "", "", ""⟩],
          r.condition = 0 → r.choice ≠ "walking" → b.trip_id ≤ r.trip_id := by
  exact (c4_reflection_anchor (some ⟨3, 0, 3, 7, "eco_ride"⟩)
      [⟨3, 0, 3, 7, "eco_ride", "", "", "", ""⟩,
       ⟨7, 0, 7, 2, "regular_ride", "", "", "", ""⟩] 0).2
    ⟨3, 0, 3, 7, "eco_ride"⟩ rfl
    ⟨3, 0, 3, 7, "eco_ride", "", "", "", ""⟩ (by decide) (by decide) (by decide)

/-- Where the flow controller sends the participant next. -/
inductive NextStep where
  | noTrips
  | assignmentMissing
  | indexError
  | reflection (c : Nat)
  | complete
  | blockIntro (b next : Nat)
  | trial (n : Nat)
deriving DecidableEq

/-- The reflection-priority loop of `check_switch` (app.py): walk the first
`upto` blocks in the participant's condition order and return the first
condition without a reflection file. -/
def firstMissingReflection (order : List Nat) (reflConds : List Int) (upto : Nat) :
    Option Nat :=
  (order.take upto).find? (fun c => ! reflConds.contains (Int.ofNat c))

/-- `check_switch` (app.py): recompute the trial count from the log, derive
the block just completed, walk earlier blocks for a missing reflection, then
re-check the completed block, and otherwise route to completion, the next
block intro, or the next trial. `reflConds` is the set of conditions whose
reflection file exists. -/
def check_switch (log : List TrialRow) (assignment : Option (Nat × Nat))
    (reflConds : List Int) : NextStep :=
  let tc := trip_count log
  if tc = 0 then NextStep.noTrips
  else
    let completedBlock := (tc - 1) / 10
    match assignment with
    | none => NextStep.assignmentMissing
    | some a =>
      match CONDITION_ORDER_SEQUENCES.get? a.1 with
      | none => NextStep.indexError
      | some order =>
        match order.get? completedBlock with
        | none => NextStep.indexError
        | some completedCondition =>
          match firstMissingReflection order reflConds (completedBlock + 1) with
          | some c => NextStep.reflection c
          | none =>
            if ! reflConds.contains (Int.ofNat completedCondition) then
              NextStep.reflection completedCondition
            else if 50 ≤ tc then NextStep.complete
            else if 0 < tc ∧ tc % 10 = 0 then
              NextStep.blockIntro (tc / 10 + 1) tc
            else NextStep.trial tc

/-- C3: with a valid assignment and a trial count in 1..50, `check_switch`
routes to the reflection of the first condition, in the participant's own
condition order over blocks `0..completedBlock`, that lacks a reflection
record; if none is lacking it goes to completion when the trial count reached
50, to the next block intro when the trial count is a multiple of 10, and to
the next trial otherwise. -/
theorem c3_reflection_check_routing (log : List TrialRow) (coi toi : Nat)
    (reflConds : List Int) (hcoi : coi < 5)
    (h1 : 1 ≤ trip_count log) (h50 : trip_count log ≤ 50) :
    check_switch log (some (coi, toi)) reflConds
      = match firstMissingReflection (CONDITION_ORDER_SEQUENCES.getD coi [])
            reflConds ((trip_count log - 1) / 10 + 1) with
        | some c => NextStep.reflection c
        | none =>
          if 50 ≤ trip_count log then NextStep.complete
          else if trip_count log % 10 = 0 then
            NextStep.blockIntro (trip_count log / 10 + 1) (trip_count log)
          else NextStep.trial (trip_count log) := by
  have htc0 : ¬ (trip_count log = 0) := by omega
  have horder : CONDITION_ORDER_SEQUENCES.get? coi
      = some (CONDITION_ORDER_SEQUENCES.getD coi []) := by
    interval_cases coi <;> rfl
  have hlen : (CONDITION_ORDER_SEQUENCES.getD coi []).length = 5 := by
    interval_cases coi <;> rfl
  have hcb : (trip_count log - 1) / 10 < 5 := by omega
  have hcb' : (trip_count log - 1) / 10 < (CONDITION_ORDER_SEQUENCES.getD coi []).length := by
    omega
  have hget : (CONDITION_ORDER_SEQUENCES.getD coi []).get? ((trip_count log - 1) / 10)
      = some ((CONDITION_ORDER_SEQUENCES.getD coi []).get ⟨(trip_count log - 1) / 10, hcb'⟩) :=
    List.get?_eq_get hcb'
  simp only [check_switch, if_neg htc0, horder, hget]
  cases hfind : firstMissingReflection (CONDITION_ORDER_SEQUENCES.getD coi [])
      reflConds ((trip_count log - 1) / 10 + 1) with
  | some c => rfl
  | none =>
    have hmemtake : (CONDITION_ORDER_SEQUENCES.getD coi []).get
        ⟨(trip_count log - 1) / 10, hcb'⟩
        ∈ (CONDITION_ORDER_SEQUENCES.getD coi []).take ((trip_count log - 1) / 10 + 1) := by
      have hlt : (trip_count log - 1) / 10
          < ((CONDITION_ORDER_SEQUENCES.getD coi []).take
              ((trip_count log - 1) / 10 + 1)).length := by
        rw [List.length_take]
        omega
      have hgt2 : ((CONDITION_ORDER_SEQUENCES.getD coi []).take
            ((trip_count log - 1) / 10 + 1)).get ⟨(trip_count log - 1) / 10, hlt⟩
          = (CONDITION_ORDER_SEQUENCES.getD coi []).get
            ⟨(trip_count log - 1) / 10, hcb'⟩ := by
        simp only [List.get_eq_getElem]
        exact (List.getElem_take' (CONDITION_ORDER_SEQUENCES.getD coi [])
          hcb' (Nat.lt_succ_self ((trip_count log - 1) / 10))).symm
      have hmem0 := List.get_mem ((CONDITION_ORDER_SEQUENCES.getD coi []).take
        ((trip_count log - 1) / 10 + 1)) ((trip_count log - 1) / 10) hlt
      rw [hgt2] at hmem0
      exact hmem0
    have hpred := List.find?_eq_none.mp hfind _ hmemtake
    have hcontains : reflConds.contains
        (Int.ofNat ((CONDITION_ORDER_SEQUENCES.getD coi []).get
          ⟨(trip_count log - 1) / 10, hcb'⟩)) = true := by
      simpa using hpred
    simp only [hcontains, Bool.not_true, Bool.false_eq_true, if_false]
    by_cases hge : 50 ≤ trip_count log
    · simp [hge]
    · by_cases hmod : trip_count log % 10 = 0
      · simp [hge, hmod, show 0 < trip_count log by omega]
      · simp [hge, hmod]

/-- A trial row as appended by the normal flow: within-condition index is the
trial number mod 10 and the reflection columns start empty. -/
def simpleRow (n cond tid : Int) (choice : String) : TrialRow :=
  ⟨n, cond, Int.emod n 10, tid, choice, "", "", "", ""⟩

/-- A contiguous demo log: trials 0..9 of condition 0, all walking. -/
def demoLog10 : List TrialRow :=
  (List.range 10).map (fun i => simpleRow (Int.ofNat i) 0 (Int.ofNat i) "walking")

/-- Witness for C3: after the ten trials of block 0 with no reflection
recorded, `check_switch` routes to the reflection of condition 0. -/
theorem c3_witness :
    check_switch demoLog10 (some (0, 0)) [] = NextStep.reflection 0 :=
  (c3_reflection_check_routing demoLog10 0 0 [] (by decide) (by decide)
    (by decide)).trans (by decide)

/-- Result of a request to `show_trip` (app.py). -/
inductive TripView where
  | notFound
  | redirectTo (n : Nat)
  | invalid
  | served (cond tid : Nat)
  | errorPage
deriving DecidableEq

/-- `show_trip` (app.py): after the participant check, the skip-ahead clamp
(redirect when the requested number exceeds `max_overall + 1`) runs BEFORE the
0..49 bounds check; then the condition and trip id are resolved. The route
converter only matches digits, so the requested number is a `Nat` and the
`overall_trip_number < 0` half of the bounds check cannot fire. -/
def show_trip (ledger : List AssignmentRow) (pid : String) (logExists : Bool)
    (log : List TrialRow) (k : Nat) : TripView :=
  if ! logExists then TripView.notFound
  else
    let next_allowed := trip_count log
    if k > next_allowed then TripView.redirectTo next_allowed
    else if 50 ≤ k then TripView.invalid
    else
      match get_condition_for_trip ledger pid k, get_trip_id_for_trip ledger pid k with
      | some c, some t => TripView.served c t
      | _, _ => TripView.errorPage

/-- A demo log with trials 0..4 recorded, for the C6 counterexample. -/
def demoLog5 : List TrialRow :=
  (List.range 5).map (fun i => simpleRow (Int.ofNat i) 0 (Int.ofNat i) "walking")

/-- C6 counterexample: with trials 0..4 recorded, requesting trial 60 — which
is outside 0..49 — is answered with a redirect to trial 5, not rejected as
invalid: the skip-ahead clamp runs before the bounds check. -/
theorem c6_counterexample :
    show_trip demoLedger pidP1 true demoLog5 60 = TripView.redirectTo 5
    ∧ show_trip demoLedger pidP1 true demoLog5 60 ≠ TripView.invalid := by
  decide

/-- C6 as amended: a request for trial `k` beyond `nextTrialNumber` is always
clamped to a redirect to `nextTrialNumber` (never an error, trial `k` is not
served); a trial number outside 0..49 is rejected as invalid only when it is
not ahead of `nextTrialNumber` (negative numbers cannot reach the handler). -/
theorem c6_skip_ahead_guard (ledger : List AssignmentRow) (pid : String)
    (log : List TrialRow) (k : Nat) :
    (k > trip_count log →
      show_trip ledger pid true log k = TripView.redirectTo (trip_count log))
    ∧ (k ≤ trip_count log → 50 ≤ k →
      show_trip ledger pid true log k = TripView.invalid) := by
  constructor
  · intro h
    simp only [show_trip, Bool.not_true, Bool.false_eq_true, if_false, if_pos h]
  · intro hle h50
    have hnot : ¬ (k > trip_count log) := by omega
    simp only [show_trip, Bool.not_true, Bool.false_eq_true, if_false, if_neg hnot,
      if_pos h50]

/-- Witness for C6: requesting trial 60 with next trial 5 redirects to 5, and
requesting trial 50 after all 50 trials (next trial 50) is rejected. -/
theorem c6_witness :
    show_trip demoLedger pidP1 true demoLog5 60 = TripView.redirectTo (trip_count demoLog5)
    ∧ show_trip demoLedger pidP1 true [simpleRow 49 4 0 "walking"] 50 = TripView.invalid := by
  constructor
  · exact (c6_skip_ahead_guard demoLedger pidP1 demoLog5 60).1 (by decide)
  · exact (c6_skip_ahead_guard demoLedger pidP1 [simpleRow 49 4 0 "walking"] 50).2
      (by decide) (by decide)

/-- An external request that mutates a participant's durable state: a trip
choice submission or a reflection completion POST. -/
inductive Act where
  | choice (k : ChoiceCall)
  | reflect (cond : Int) (payload : Option ReflectionPayload)
deriving DecidableEq

/-- Apply one request to the per-participant state. -/
def applyAct (st : PState) (a : Act) : PState :=
  match a with
  | Act.choice k => stepChoice st k
  | Act.reflect cond p => complete_reflection st cond p

/-- The per-participant state after a sequence of requests from a fresh log. -/
def runActs (acts : List Act) : PState :=
  acts.foldl applyAct emptyPState

/-- C8 counterexample: a single direct POST to `complete_reflection` for
condition 0, with no trial ever recorded, creates the reflection record while
the trial log holds zero rows of condition 0 — the endpoint enforces no
precondition, so the claimed invariant fails in a reachable state. -/
theorem c8_counterexample :
    lookupByCondition
        (runActs [Act.reflect 0 (some ⟨"walking_only", "w", "", "", ""⟩)]).reflections 0
      ≠ none
    ∧ ((runActs [Act.reflect 0 (some ⟨"walking_only", "w", "", "", ""⟩)]).log.filter
        (fun r => r.condition == (0 : Int))).length = 0 := by
  decide

/-- C8 as amended: reflections reached through the intended flow are safe.
Whenever `check_switch` routes to the reflection of condition `c` at a block
boundary (trial count a multiple of 10) over a contiguous log whose rows carry
their resolved conditions, all 10 trials of the block of `c` are already
recorded; `complete_reflection` itself enforces none of this (see the
counterexample). -/
theorem c8_reflection_after_full_block (log : List TrialRow) (coi toi : Nat)
    (reflConds : List Int) (c : Nat)
    (hcoi : coi < 5)
    (hmod : trip_count log % 10 = 0)
    (hcontig : ∀ i : Nat, i < trip_count log → ∃ r ∈ log,
        r.overall_trip_number = Int.ofNat i
        ∧ r.condition = Int.ofNat ((CONDITION_ORDER_SEQUENCES.getD coi []).getD (i / 10) 0))
    (hroute : check_switch log (some (coi, toi)) reflConds = NextStep.reflection c) :
    ∃ b : Nat, b < 5 ∧ (CONDITION_ORDER_SEQUENCES.getD coi []).getD b 0 = c
      ∧ ∀ j : Nat, j < 10 → ∃ r ∈ log,
          r.overall_trip_number = Int.ofNat (10 * b + j)
          ∧ r.condition = Int.ofNat c := by
  by_cases htc : trip_count log = 0
  · simp [check_switch, htc] at hroute
  have horder : CONDITION_ORDER_SEQUENCES.get? coi
      = some (CONDITION_ORDER_SEQUENCES.getD coi []) := by
    interval_cases coi <;> rfl
  have hlen : (CONDITION_ORDER_SEQUENCES.getD coi []).length = 5 := by
    interval_cases coi <;> rfl
  have hblocks : ∀ b : Nat, b ≤ (trip_count log - 1) / 10 → ∀ j : Nat, j < 10 →
      ∃ r ∈ log, r.overall_trip_number = Int.ofNat (10 * b + j)
        ∧ r.condition = Int.ofNat ((CONDITION_ORDER_SEQUENCES.getD coi []).getD b 0) := by
    intro b hble j hj
    have htcge : 10 ≤ trip_count log := by omega
    have hi : 10 * b + j < trip_count log := by omega
    obtain ⟨r, hr, hov, hcnd⟩ := hcontig (10 * b + j) hi
    refine ⟨r, hr, hov, ?_⟩
    have hdiv : (10 * b + j) / 10 = b := by omega
    rw [hcnd, hdiv]
  cases hgetcb : (CONDITION_ORDER_SEQUENCES.getD coi []).get? ((trip_count log - 1) / 10) with
  | none =>
    simp only [check_switch, if_neg htc, horder, hgetcb] at hroute
    exact absurd hroute (by simp)
  | some cc =>
    have hccD : (CONDITION_ORDER_SEQUENCES.getD coi []).getD ((trip_count log - 1) / 10) 0
        = cc := by
      rw [List.getD_eq_get?, hgetcb]
      rfl
    simp only [check_switch, if_neg htc, horder, hgetcb] at hroute
    cases hfind : firstMissingReflection (CONDITION_ORDER_SEQUENCES.getD coi [])
        reflConds ((trip_count log - 1) / 10 + 1) with
    | some c2 =>
      rw [hfind] at hroute
      have hc2 : c2 = c := by simpa using hroute
      have hmem := List.mem_of_find?_eq_some hfind
      obtain ⟨b, hblt, hbeq⟩ := List.getElem_of_mem hmem
      have hblen : b < (CONDITION_ORDER_SEQUENCES.getD coi []).length := by
        rw [List.length_take] at hblt
        omega
      have hble : b ≤ (trip_count log - 1) / 10 := by
        rw [List.length_take] at hblt
        omega
      have hbval : (CONDITION_ORDER_SEQUENCES.getD coi []).getD b 0 = c := by
        rw [List.getD_eq_get?, List.get?_eq_get hblen]
        have htake := List.getElem_take' (CONDITION_ORDER_SEQUENCES.getD coi [])
          hblen (show b < (trip_count log - 1) / 10 + 1 by omega)
        simp only [Option.getD_some, List.get_eq_getElem]
        rw [htake]
        rw [hbeq, hc2]
      refine ⟨b, by omega, hbval, ?_⟩
      intro j hj
      have := hblocks b hble j hj
      rw [hbval] at this
      exact this
    | none =>
      rw [hfind] at hroute
      by_cases hcc : reflConds.contains (Int.ofNat cc) = true
      · simp only [hcc, Bool.not_true] at hroute
        exfalso
        rw [if_neg (by simp)] at hroute
        split_ifs at hroute
      · have hccF : reflConds.contains (Int.ofNat cc) = false := by
          simpa using hcc
        simp only [hccF, Bool.not_false, if_true, NextStep.reflection.injEq] at hroute
        refine ⟨(trip_count log - 1) / 10, by
            have := List.get?_eq_some.mp hgetcb
            obtain ⟨hh, _⟩ := this
            omega, by rw [hccD, hroute], ?_⟩
        intro j hj
        have := hblocks ((trip_count log - 1) / 10) (Nat.le_refl _) j hj
        rw [hccD, hroute] at this
        exact this

/-- Witness for C8: with the ten trials of block 0 recorded contiguously and
no reflection yet, the flow routes to the reflection of condition 0 and the
theorem yields the fully recorded block. -/
theorem c8_witness :
    ∃ b : Nat, b < 5 ∧ (CONDITION_ORDER_SEQUENCES.getD 0 []).getD b 0 = 0
      ∧ ∀ j : Nat, j < 10 → ∃ r ∈ demoLog10,
          r.overall_trip_number = Int.ofNat (10 * b + j)
          ∧ r.condition = Int.ofNat 0 :=
  c8_reflection_after_full_block demoLog10 0 0 [] 0 (by decide) (by decide)
    (by decide) (by decide)
